import Mathlib

/- Verification development for the mlx-whisper-mcp dispatch layer.

   The repository exposes four tools (transcribe_file, transcribe_audio,
   download_youtube, transcribe_youtube).  We give a shallow embedding of the
   four entry points: pure string manipulation (the Python str.split calls and
   the pathlib name operations) is translated directly, while the external
   collaborators (the mlx_whisper engine, the yt-dlp downloader, the stdlib
   base64 decoder, and the success or failure of file writes) are modelled as
   oracle fields of an environment record, and the filesystem is explicit
   state threaded through each call. -/

/-! ## Python string splitting, specialised to the separators used in the code

    The code computes url.split("v=")[-1].split("&")[0].  Python str.split
    with a non-empty separator scans left to right, cutting at each
    non-overlapping occurrence.  splitVEq implements split("v=") and splitAmp
    implements split("&"), both over lists of characters. -/

def hasVEq : List Char → Bool
  | [] => false
  | [_] => false
  | c :: d :: rest => (c == 'v' && d == '=') || hasVEq (d :: rest)

def splitVEq : List Char → List (List Char)
  | [] => [[]]
  | [c] => [[c]]
  | c :: d :: rest =>
    if c = 'v' ∧ d = '=' then [] :: splitVEq rest
    else List.modifyHead (fun t => c :: t) (splitVEq (d :: rest))

/-- Suffix of a string strictly after the rightmost occurrence of the two
    characters v= (the whole string when there is no occurrence). -/
def afterLastVEq : List Char → List Char
  | [] => []
  | [c] => [c]
  | c :: d :: rest =>
    if hasVEq (d :: rest) then afterLastVEq (d :: rest)
    else if c = 'v' ∧ d = '=' then rest
    else c :: d :: rest

def splitAmp : List Char → List (List Char)
  | [] => [[]]
  | c :: rest =>
    if c = '&' then [] :: splitAmp rest
    else List.modifyHead (fun t => c :: t) (splitAmp rest)

/-- The identifier the code derives from a URL:
    url.split("v=")[-1].split("&")[0]. -/
def videoId (l : List Char) : List Char :=
  (splitAmp ((splitVEq l).getLastD [])).headD []

/-- The derivation the spec describes: the substring after the last
    occurrence of v=, truncated at the next ampersand. -/
def derivedId (l : List Char) : List Char :=
  List.takeWhile (fun c => !(c == '&')) (afterLastVEq l)

/-! ## Path name operations

    Models of the pathlib operations the code uses: Path(p).name (the final
    component, after the last slash) and Path(p).with_suffix(s) (the path
    with the extension of the final component replaced by s). -/

def hasChar (a : Char) : List Char → Bool
  | [] => false
  | c :: rest => c == a || hasChar a rest

/-- Model of Path(p).name: the part of the path after the last slash. -/
def pathName : List Char → List Char
  | [] => []
  | c :: rest =>
    if hasChar '/' rest then pathName rest
    else if c == '/' then rest
    else c :: rest

/-- The complement of pathName: everything up to and including the last
    slash (empty when the path has no slash). -/
def dirPart : List Char → List Char
  | [] => []
  | c :: rest =>
    if hasChar '/' rest then c :: dirPart rest
    else if c == '/' then [c]
    else []

/-- Helper for nameStem: drops the last dot of the argument and everything
    after it (called only on lists known to contain a dot). -/
def nameStemA : List Char → List Char
  | [] => []
  | c :: rest => if hasChar '.' rest then c :: nameStemA rest else []

/-- Model of the stem used by Path.with_suffix: the name without its final
    extension; a leading dot (hidden files) does not start an extension. -/
def nameStem (n : List Char) : List Char :=
  match n with
  | [] => []
  | c :: rest => if hasChar '.' rest then c :: nameStemA rest else n

/-- Model of Path(p).with_suffix(suf). -/
def withSuffix (p : List Char) (suf : List Char) : List Char :=
  dirPart p ++ nameStem (pathName p) ++ suf

/-! ## String wrappers for the path and URL helpers -/

def pathNameS (p : String) : String := String.mk (pathName p.data)

def withSuffixS (p suf : String) : String := String.mk (withSuffix p.data suf.data)

def videoIdS (url : String) : String := String.mk (videoId url.data)

/-! ## The system model

    The filesystem is a map from paths to file contents.  The external
    collaborators are oracle fields of Env:
      b64     models base64.b64decode (none models a raised binascii error,
              some gives the decoded payload, recorded as the content of the
              staged file);
      b64msg  the message of the raised decode error;
      engine  models mlx_whisper.transcribe(path, path_or_hf_repo, language,
              task) followed by the ["text"] projection (error models a
              raised exception);
      writeOk whether open(path, "w") + write succeeds at a path (false
              models a raised IOError, leaving the filesystem unchanged);
      wmsg    the message of that raised IOError;
      dl      models YoutubeDL(opts).download([url]) invoked with the given
              output template path;
      tempStem the stem of the fresh name chosen by
              tempfile.NamedTemporaryFile (the suffix is appended to it).
    Each tool returns its Python result, the final filesystem, and the trace
    of external calls it made. -/

abbrev FS := String → Option String

def fsWrite (fs : FS) (p : String) (content : String) : FS :=
  fun q => if q = p then some content else fs q

def fsUnlink (fs : FS) (p : String) : FS :=
  fun q => if q = p then none else fs q

def fsExists (fs : FS) (p : String) : Bool := (fs p).isSome

def fsEmpty : FS := fun _ => none

inductive DlOutcome where
  | raised (msg : String)
  | finished (created : Option String)

inductive Ev where
  | engineCall (path : String) (language : Option String) (task : String)
  | dlCall (url : String) (outPath : String)
deriving DecidableEq, Repr

structure Env where
  b64 : String → Option String
  b64msg : String → String
  engine : String → String → Option String → String → Except String String
  writeOk : String → Bool
  wmsg : String → String
  dl : String → String → DlOutcome
  tempStem : String

/-- Python result of a tool call: a normal return or an exception escaping
    the function body. -/
inductive PyResult (α : Type) where
  | ok (v : α)
  | exn (msg : String)
deriving DecidableEq, Repr

/-- The task argument of transcribe_file and transcribe_audio is declared
    with the type Literal["transcribe", "translate"]; the protocol layer
    validates it before the function body runs, so the body only ever sees
    these two values. -/
inductive TaskKind where
  | transcribe
  | translate
deriving DecidableEq, Repr

def TaskKind.str : TaskKind → String
  | .transcribe => "transcribe"
  | .translate => "translate"

def MODEL_PATH : String := "mlx-community/whisper-large-v3-turbo"

def HOME_DIR : String := "/Users/me"

def DATA_DIR : String := HOME_DIR ++ "/.mlx-whisper-mcp/downloads"

/-! ## The four tool entry points -/

/-- Embedding of transcribe_file.  The existence assertion sits before the
    try block, so its failure escapes the function as an exception; every
    failure inside the try block is caught and flattened to an error
    string. -/
def transcribe_file (env : Env) (fs : FS) (file_path : String)
    (language : Option String) (task : TaskKind) :
    PyResult String × FS × List Ev :=
  if fsExists fs file_path = false then
    (.exn ("File not found: " ++ file_path), fs, [])
  else
    match env.engine file_path MODEL_PATH language task.str with
    | .error e =>
      (.ok ("Error transcribing audio file: " ++ e), fs,
       [.engineCall file_path language task.str])
    | .ok transcript =>
      let output_file := DATA_DIR ++ "/" ++ pathNameS (withSuffixS file_path ".txt")
      if env.writeOk output_file then
        (.ok ("Transcription:\n\n" ++ transcript),
         fsWrite fs output_file transcript,
         [.engineCall file_path language task.str])
      else
        (.ok ("Error transcribing audio file: " ++ env.wmsg output_file), fs,
         [.engineCall file_path language task.str])

/-- Embedding of transcribe_audio.  NamedTemporaryFile(delete=False) creates
    the file on disk before the base64 payload is decoded; os.unlink runs
    only at the end of the fully successful path. -/
def transcribe_audio (env : Env) (fs : FS) (audio_data : String)
    (language : Option String) (file_format : String) (task : TaskKind) :
    String × FS × List Ev :=
  let audio_path := env.tempStem ++ "." ++ file_format
  let fs1 := fsWrite fs audio_path ""
  match env.b64 audio_data with
  | none => ("Error transcribing audio: " ++ env.b64msg audio_data, fs1, [])
  | some audio_bytes =>
    let fs2 := fsWrite fs1 audio_path audio_bytes
    match env.engine audio_path MODEL_PATH language task.str with
    | .error e =>
      ("Error transcribing audio: " ++ e, fs2,
       [.engineCall audio_path language task.str])
    | .ok transcript =>
      let output_file := DATA_DIR ++ "/" ++ pathNameS (withSuffixS audio_path ".txt")
      if env.writeOk output_file then
        ("Transcription:\n\n" ++ transcript,
         fsUnlink (fsWrite fs2 output_file transcript) audio_path,
         [.engineCall audio_path language task.str])
      else
        ("Error transcribing audio: " ++ env.wmsg output_file, fs2,
         [.engineCall audio_path language task.str])

/-- Embedding of download_youtube.  The keep_file parameter is accepted but
    never read by the body.  A download failure (raised error or missing
    output file) yields None. -/
def download_youtube (env : Env) (fs : FS) (url : String) (keep_file : Bool) :
    Option String × FS × List Ev :=
  let video_id := videoIdS url
  let output_path := DATA_DIR ++ "/" ++ video_id ++ ".mp4"
  if fsExists fs output_path then
    (some output_path, fs, [])
  else
    match env.dl url output_path with
    | .raised _ => (none, fs, [.dlCall url output_path])
    | .finished none => (none, fs, [.dlCall url output_path])
    | .finished (some content) =>
      (some output_path, fsWrite fs output_path content,
       [.dlCall url output_path])

/-- Embedding of transcribe_youtube.  Note that its task parameter is a bare
    string (no Literal annotation) passed verbatim to the engine, that the
    internal download is always made with keep_file=True, and that the media
    file is only deleted after a successful transcript write. -/
def transcribe_youtube (env : Env) (fs : FS) (url : String)
    (language : Option String) (task : String) (keep_file : Bool) :
    String × FS × List Ev :=
  let dlr := download_youtube env fs url true
  let fs1 := dlr.2.1
  let evs1 := dlr.2.2
  match dlr.1 with
  | none => ("Error: None", fs1, evs1)
  | some audio_path =>
    if fsExists fs1 audio_path = false then
      ("Error: " ++ audio_path, fs1, evs1)
    else
      match env.engine audio_path MODEL_PATH language task with
      | .error e =>
        ("Error transcribing YouTube video: " ++ e, fs1,
         evs1 ++ [.engineCall audio_path language task])
      | .ok transcript =>
        let output_file := withSuffixS audio_path ".txt"
        if env.writeOk output_file then
          let fs2 := fsWrite fs1 output_file transcript
          let fs3 :=
            if keep_file = false ∧ fsExists fs2 audio_path = true then
              fsUnlink fs2 audio_path
            else fs2
          ("Transcription of YouTube video (" ++ url ++ "):\n\n" ++ transcript,
           fs3, evs1 ++ [.engineCall audio_path language task])
        else
          ("Error transcribing YouTube video: " ++ env.wmsg output_file, fs1,
           evs1 ++ [.engineCall audio_path language task])

/-- Checks that an engine call carries a task value from the two-member
    enumeration. -/
def taskOkEv : Ev → Bool
  | .engineCall _ _ t => t == "transcribe" || t == "translate"
  | .dlCall _ _ => true

def taskOkEvents (evs : List Ev) : Bool := evs.all taskOkEv

/-! ## Concrete oracle environments and filesystems used as test inputs -/

def envEngineOk : Env where
  b64 := fun _ => some "PAYLOAD"
  b64msg := fun _ => "Invalid base64-encoded string"
  engine := fun _ _ _ _ => .ok "hello world"
  writeOk := fun _ => true
  wmsg := fun _ => "Permission denied"
  dl := fun _ _ => .finished (some "VIDEODATA")
  tempStem := "/tmp/tmpaudio"

def envEngineFails : Env :=
  { envEngineOk with engine := fun _ _ _ _ => .error "model blew up" }

def envWriteFails : Env :=
  { envEngineOk with writeOk := fun _ => false }

def envBadB64 : Env :=
  { envEngineOk with b64 := fun _ => none }

def fsSong : FS := fsWrite fsEmpty "/music/song.wav" "AUDIO"

def fsTake : FS := fsWrite fsEmpty "/audio/take1.mp3" "MP3DATA"

def urlC5 : String := "https://x.test/watch?v=VID5&t=9"

def urlC7 : String := "https://x.test/watch?v=VID7"

def urlC7w : String := "https://x.test/watch?v=W7"

def urlC9 : String := "https://x.test/watch?v=VID9"

/-! ## Properties of the string splitting functions -/

theorem splitAmp_ne_nil (l : List Char) : splitAmp l ≠ [] := by
  induction l with
  | nil => simp [splitAmp]
  | cons c rest ih =>
    by_cases hc : c = '&'
    · simp [splitAmp, hc]
    · simp only [splitAmp, if_neg hc]
      cases hsp : splitAmp rest with
      | nil => exact absurd hsp ih
      | cons t ts => simp [List.modifyHead]

theorem splitAmp_headD (l : List Char) :
    (splitAmp l).headD [] = List.takeWhile (fun c => !(c == '&')) l := by
  induction l with
  | nil => simp [splitAmp]
  | cons c rest ih =>
    by_cases hc : c = '&'
    · simp [splitAmp, hc, List.takeWhile]
    · simp only [splitAmp, if_neg hc]
      cases hsp : splitAmp rest with
      | nil => exact absurd hsp (splitAmp_ne_nil rest)
      | cons t ts =>
        rw [hsp] at ih
        have hcb : (c == '&') = false := by simp [hc]
        simp [List.modifyHead, List.takeWhile, hcb, ← ih]

theorem splitVEq_ne_nil (l : List Char) : splitVEq l ≠ [] := by
  have key : ∀ n (l : List Char), l.length ≤ n → splitVEq l ≠ [] := by
    intro n
    induction n with
    | zero =>
      intro l hl
      have hl0 : l = [] := List.length_eq_zero.mp (Nat.le_zero.mp hl)
      subst hl0; simp [splitVEq]
    | succ n ih =>
      intro l hl
      rcases l with _ | ⟨c, _ | ⟨d, rest⟩⟩
      · simp [splitVEq]
      · simp [splitVEq]
      · by_cases h : c = 'v' ∧ d = '='
        · simp [splitVEq, h]
        · simp only [splitVEq, if_neg h]
          have hrec := ih (d :: rest) (by simp at hl ⊢; omega)
          cases hsp : splitVEq (d :: rest) with
          | nil => exact absurd hsp hrec
          | cons t ts => simp [List.modifyHead]
  exact key l.length l le_rfl

theorem hasVEq_cons_of_ne (x : Char) (q : List Char) (hx : (x == 'v') = false) :
    hasVEq (x :: q) = hasVEq q := by
  cases q with
  | nil => simp [hasVEq]
  | cons e q2 => simp [hasVEq, hx]

theorem splitVEq_of_not_hasVEq (l : List Char) (h : hasVEq l = false) :
    splitVEq l = [l] := by
  have key : ∀ n (l : List Char), l.length ≤ n → hasVEq l = false →
      splitVEq l = [l] := by
    intro n
    induction n with
    | zero =>
      intro l hl _
      have hl0 : l = [] := List.length_eq_zero.mp (Nat.le_zero.mp hl)
      subst hl0; rfl
    | succ n ih =>
      intro l hl h
      rcases l with _ | ⟨c, _ | ⟨d, rest⟩⟩
      · rfl
      · rfl
      · simp only [hasVEq, Bool.or_eq_false_iff] at h
        obtain ⟨hb, h2⟩ := h
        have hcd : ¬(c = 'v' ∧ d = '=') := by
          rintro ⟨rfl, rfl⟩; simp at hb
        have hrec := ih (d :: rest) (by simp at hl ⊢; omega) h2
        simp [splitVEq, if_neg hcd, hrec, List.modifyHead]
  exact key l.length l le_rfl h

theorem two_le_splitVEq_length (l : List Char) (h : hasVEq l = true) :
    2 ≤ (splitVEq l).length := by
  have key : ∀ n (l : List Char), l.length ≤ n → hasVEq l = true →
      2 ≤ (splitVEq l).length := by
    intro n
    induction n with
    | zero =>
      intro l hl h
      have hl0 : l = [] := List.length_eq_zero.mp (Nat.le_zero.mp hl)
      subst hl0; simp [hasVEq] at h
    | succ n ih =>
      intro l hl h
      rcases l with _ | ⟨c, _ | ⟨d, rest⟩⟩
      · simp [hasVEq] at h
      · simp [hasVEq] at h
      · by_cases hcd : c = 'v' ∧ d = '='
        · have hne := splitVEq_ne_nil rest
          have hpos : 0 < (splitVEq rest).length := List.length_pos.mpr hne
          simp only [splitVEq, if_pos hcd, List.length_cons]
          omega
        · have hb : (c == 'v' && d == '=') = false := by
            by_cases h1 : c = 'v'
            · by_cases h2 : d = '='
              · exact absurd ⟨h1, h2⟩ hcd
              · simp [h2]
            · simp [h1]
          simp only [hasVEq, hb, Bool.false_or] at h
          have hrec := ih (d :: rest) (by simp at hl ⊢; omega) h
          cases hsp : splitVEq (d :: rest) with
          | nil => exact absurd hsp (splitVEq_ne_nil (d :: rest))
          | cons t ts =>
            rw [hsp] at hrec
            simp only [splitVEq, if_neg hcd, hsp, List.modifyHead,
              List.length_cons] at hrec ⊢
            omega
  exact key l.length l le_rfl h

theorem afterLastVEq_of_not_hasVEq (l : List Char) (h : hasVEq l = false) :
    afterLastVEq l = l := by
  rcases l with _ | ⟨c, _ | ⟨d, rest⟩⟩
  · rfl
  · rfl
  · simp only [hasVEq, Bool.or_eq_false_iff] at h
    obtain ⟨hb, h2⟩ := h
    have hcd : ¬(c = 'v' ∧ d = '=') := by
      rintro ⟨rfl, rfl⟩; simp at hb
    simp [afterLastVEq, h2, hcd]

theorem afterLastVEq_cons_of_hasVEq (x : Char) (q : List Char)
    (h : hasVEq q = true) : afterLastVEq (x :: q) = afterLastVEq q := by
  rcases q with _ | ⟨e, _ | ⟨f, q2⟩⟩
  · simp [hasVEq] at h
  · simp [hasVEq] at h
  · simp [afterLastVEq, h]

theorem getLastD_irrel {α : Type} (l : List α) (a b : α) (h : l ≠ []) :
    l.getLastD a = l.getLastD b := by
  rw [List.getLastD_eq_getLast?, List.getLastD_eq_getLast?]
  cases hq : l.getLast? with
  | none => exact absurd (List.getLast?_eq_none_iff.mp hq) h
  | some y => rfl

theorem getLastD_cons_of_ne_nil {α : Type} (x d : α) (l : List α)
    (h : l ≠ []) : (x :: l).getLastD d = l.getLastD d := by
  rw [List.getLastD_cons]
  exact getLastD_irrel l x d h

theorem splitVEq_getLastD (l : List Char) :
    (splitVEq l).getLastD [] = afterLastVEq l := by
  have key : ∀ n (l : List Char), l.length ≤ n →
      (splitVEq l).getLastD [] = afterLastVEq l := by
    intro n
    induction n with
    | zero =>
      intro l hl
      have hl0 : l = [] := List.length_eq_zero.mp (Nat.le_zero.mp hl)
      subst hl0; rfl
    | succ n ih =>
      intro l hl
      rcases l with _ | ⟨c, _ | ⟨d, rest⟩⟩
      · rfl
      · rfl
      · have hlen2 : (d :: rest).length ≤ n := by simp at hl ⊢; omega
        have hlenr : rest.length ≤ n := by simp at hl; omega
        by_cases hcd : c = 'v' ∧ d = '='
        · obtain ⟨hc, hd⟩ := hcd
          subst hc; subst hd
          have hx : hasVEq ('=' :: rest) = hasVEq rest :=
            hasVEq_cons_of_ne '=' rest (by decide)
          have hstep : splitVEq ('v' :: '=' :: rest) = [] :: splitVEq rest := by
            simp [splitVEq]
          have hL : (splitVEq ('v' :: '=' :: rest)).getLastD [] =
              (splitVEq rest).getLastD [] := by
            rw [hstep]
            exact getLastD_cons_of_ne_nil [] [] (splitVEq rest)
              (splitVEq_ne_nil rest)
          by_cases hR : hasVEq rest
          · rw [hL, ih rest hlenr]
            have hRHS : afterLastVEq ('v' :: '=' :: rest) =
                afterLastVEq ('=' :: rest) := by
              simp [afterLastVEq, hx, hR]
            rw [hRHS, afterLastVEq_cons_of_hasVEq '=' rest hR]
          · have hRf : hasVEq rest = false := Bool.eq_false_iff.mpr hR
            have hxf : hasVEq ('=' :: rest) = false := by rw [hx]; exact hRf
            rw [hL, ih rest hlenr, afterLastVEq_of_not_hasVEq rest hRf]
            simp [afterLastVEq, hxf]
        · have hstep : splitVEq (c :: d :: rest) =
              List.modifyHead (fun t => c :: t) (splitVEq (d :: rest)) := by
            simp [splitVEq, hcd]
          by_cases hDR : hasVEq (d :: rest)
          · have h2 := two_le_splitVEq_length (d :: rest) hDR
            rcases hsp : splitVEq (d :: rest) with _ | ⟨x, _ | ⟨y, zs⟩⟩
            · exact absurd hsp (splitVEq_ne_nil (d :: rest))
            · rw [hsp] at h2; simp at h2
            · have hL : (splitVEq (c :: d :: rest)).getLastD [] =
                  (splitVEq (d :: rest)).getLastD [] := by
                rw [hstep, hsp]
                show ((c :: x) :: y :: zs).getLastD [] =
                  (x :: y :: zs).getLastD []
                rw [getLastD_cons_of_ne_nil (c :: x) [] (y :: zs) (by simp),
                  getLastD_cons_of_ne_nil x [] (y :: zs) (by simp)]
              rw [hL, ih (d :: rest) hlen2]
              simp [afterLastVEq, hDR]
          · have hDRf : hasVEq (d :: rest) = false := Bool.eq_false_iff.mpr hDR
            have hspl := splitVEq_of_not_hasVEq (d :: rest) hDRf
            rw [hstep, hspl]
            simp [afterLastVEq, hDRf, hcd, List.modifyHead]
  exact key l.length l le_rfl

theorem videoId_eq_derivedId (l : List Char) : videoId l = derivedId l := by
  unfold videoId derivedId
  rw [splitVEq_getLastD, splitAmp_headD]

theorem hasChar_append (a : Char) (l1 l2 : List Char) :
    hasChar a (l1 ++ l2) = (hasChar a l1 || hasChar a l2) := by
  induction l1 with
  | nil => simp [hasChar]
  | cons c rest ih => simp [hasChar, ih, Bool.or_assoc]

theorem dirPart_append_pathName (p : List Char) :
    dirPart p ++ pathName p = p := by
  induction p with
  | nil => rfl
  | cons c rest ih =>
    by_cases h1 : hasChar '/' rest
    · simp [dirPart, pathName, h1, ih]
    · have h1f : hasChar '/' rest = false := Bool.eq_false_iff.mpr h1
      by_cases h2 : c == '/'
      · simp [dirPart, pathName, h1f, h2]
      · have h2f : (c == '/') = false := Bool.eq_false_iff.mpr h2
        simp [dirPart, pathName, h1f, h2f]

theorem hasChar_pathName (p : List Char) : hasChar '/' (pathName p) = false := by
  induction p with
  | nil => rfl
  | cons c rest ih =>
    by_cases h1 : hasChar '/' rest
    · simp [pathName, h1, ih]
    · have h1f : hasChar '/' rest = false := Bool.eq_false_iff.mpr h1
      by_cases h2 : c == '/'
      · simp [pathName, h1f, h2]
      · have h2f : (c == '/') = false := Bool.eq_false_iff.mpr h2
        simp [pathName, h1f, h2f, hasChar]

theorem pathName_no_slash (m : List Char) (h : hasChar '/' m = false) :
    pathName m = m := by
  cases m with
  | nil => rfl
  | cons c rest =>
    simp only [hasChar, Bool.or_eq_false_iff] at h
    simp [pathName, h.1, h.2]

theorem dirPart_no_slash (m : List Char) (h : hasChar '/' m = false) :
    dirPart m = [] := by
  cases m with
  | nil => rfl
  | cons c rest =>
    simp only [hasChar, Bool.or_eq_false_iff] at h
    simp [dirPart, h.1, h.2]

theorem dirPart_ends_slash (p : List Char) (h : hasChar '/' p = true) :
    ∃ d, dirPart p = d ++ ['/'] := by
  induction p with
  | nil => simp [hasChar] at h
  | cons c rest ih =>
    by_cases h1 : hasChar '/' rest
    · obtain ⟨d, hd⟩ := ih h1
      exact ⟨c :: d, by simp [dirPart, h1, hd]⟩
    · have h1f : hasChar '/' rest = false := Bool.eq_false_iff.mpr h1
      simp only [hasChar, h1f, Bool.or_false] at h
      have hc : c = '/' := by simpa using h
      exact ⟨[], by simp [dirPart, h1f, h, hc]⟩

theorem dirPart_shape (p : List Char) :
    dirPart p = [] ∨ ∃ d, dirPart p = d ++ ['/'] := by
  by_cases h : hasChar '/' p
  · exact Or.inr (dirPart_ends_slash p h)
  · exact Or.inl (dirPart_no_slash p (Bool.eq_false_iff.mpr h))

theorem pathName_append_slash (d m : List Char) (h : hasChar '/' m = false) :
    pathName (d ++ '/' :: m) = m := by
  induction d with
  | nil =>
    simp only [List.nil_append]
    simp [pathName, h]
  | cons c d2 ih =>
    have hh : hasChar '/' (d2 ++ '/' :: m) = true := by
      rw [hasChar_append]
      simp [hasChar]
    simp [pathName, hh, ih]

theorem hasChar_nameStemA (a : Char) (r : List Char) (h : hasChar a r = false) :
    hasChar a (nameStemA r) = false := by
  induction r with
  | nil => rfl
  | cons c rest ih =>
    simp only [hasChar, Bool.or_eq_false_iff] at h
    by_cases hd : hasChar '.' rest
    · simp [nameStemA, hd, hasChar, h.1, ih h.2]
    · have hdf : hasChar '.' rest = false := Bool.eq_false_iff.mpr hd
      simp [nameStemA, hdf, hasChar]

theorem hasChar_nameStem (a : Char) (n : List Char) (h : hasChar a n = false) :
    hasChar a (nameStem n) = false := by
  cases n with
  | nil => exact h
  | cons c rest =>
    simp only [hasChar, Bool.or_eq_false_iff] at h
    by_cases hd : hasChar '.' rest
    · simp [nameStem, hd, hasChar, h.1, hasChar_nameStemA a rest h.2]
    · have hdf : hasChar '.' rest = false := Bool.eq_false_iff.mpr hd
      simp [nameStem, hdf, hasChar, h.1, h.2]

/-- Taking the name after replacing the suffix is the same as replacing the
    suffix of the name: the form the spec uses to describe the output file. -/
theorem pathName_withSuffix (p suf : List Char) (hs : hasChar '/' suf = false) :
    pathName (withSuffix p suf) = nameStem (pathName p) ++ suf := by
  unfold withSuffix
  have hm : hasChar '/' (nameStem (pathName p) ++ suf) = false := by
    rw [hasChar_append, hasChar_nameStem '/' (pathName p) (hasChar_pathName p),
      hs]
    rfl
  rcases dirPart_shape p with h | ⟨d, hd⟩
  · rw [h, List.nil_append]
    exact pathName_no_slash _ hm
  · rw [hd]
    simp only [List.append_assoc, List.singleton_append]
    exact pathName_append_slash d _ hm

theorem txt_ne_mp4_suffix (a b : List Char) :
    a ++ String.toList ".txt" ≠ b ++ String.toList ".mp4" := by
  intro h
  have h2 := congrArg (fun l => l.getLast?) h
  simp only at h2
  rw [show String.toList ".txt" = ['.', 't', 'x'] ++ ['t'] from rfl] at h2
  rw [show String.toList ".mp4" = ['.', 'm', 'p'] ++ ['4'] from rfl] at h2
  rw [← List.append_assoc, ← List.append_assoc] at h2
  rw [List.getLast?_concat, List.getLast?_concat] at h2
  exact absurd (Option.some.inj h2) (by decide)

/-! ## Helper lemmas about the filesystem model and the tool bodies -/

theorem fsExists_write_self (fs : FS) (p v : String) :
    fsExists (fsWrite fs p v) p = true := by
  simp [fsExists, fsWrite]

theorem fsExists_write_mono (fs : FS) (p q v : String)
    (h : fsExists fs p = true) : fsExists (fsWrite fs q v) p = true := by
  unfold fsExists at h ⊢
  unfold fsWrite
  by_cases hpq : p = q
  · simp [hpq]
  · simp [hpq]
    exact h

theorem fsExists_unlink_self (fs : FS) (p : String) :
    fsExists (fsUnlink fs p) p = false := by
  simp [fsExists, fsUnlink]

theorem fsExists_unlink_other (fs : FS) (p q : String) (h : q ≠ p) :
    fsExists (fsUnlink fs p) q = fsExists fs q := by
  simp [fsExists, fsUnlink, h]

theorem string_data_append (s t : String) : (s ++ t).data = s.data ++ t.data :=
  rfl

/-- On a path returned by download_youtube, the path has the derived shape
    and the file exists in the returned filesystem. -/
theorem download_some_shape (env : Env) (fs : FS) (url : String) (k : Bool)
    (p : String) (h : (download_youtube env fs url k).1 = some p) :
    p = DATA_DIR ++ "/" ++ videoIdS url ++ ".mp4" ∧
    fsExists (download_youtube env fs url k).2.1 p = true := by
  by_cases hex : fsExists fs (DATA_DIR ++ "/" ++ videoIdS url ++ ".mp4") = true
  · have hcall : download_youtube env fs url k =
        (some (DATA_DIR ++ "/" ++ videoIdS url ++ ".mp4"), fs, []) := by
      unfold download_youtube
      simp [hex]
    rw [hcall] at h ⊢
    have hp : DATA_DIR ++ "/" ++ videoIdS url ++ ".mp4" = p := by
      simpa using h
    subst hp
    exact ⟨rfl, hex⟩
  · have hexf : fsExists fs (DATA_DIR ++ "/" ++ videoIdS url ++ ".mp4") = false :=
      Bool.eq_false_iff.mpr hex
    rcases hdl : env.dl url (DATA_DIR ++ "/" ++ videoIdS url ++ ".mp4") with
      msg | created
    · have hcall : download_youtube env fs url k =
          (none, fs, [.dlCall url (DATA_DIR ++ "/" ++ videoIdS url ++ ".mp4")]) := by
        unfold download_youtube
        simp [hexf, hdl]
      rw [hcall] at h
      simp at h
    · cases created with
      | none =>
        have hcall : download_youtube env fs url k =
            (none, fs, [.dlCall url (DATA_DIR ++ "/" ++ videoIdS url ++ ".mp4")]) := by
          unfold download_youtube
          simp [hexf, hdl]
        rw [hcall] at h
        simp at h
      | some content =>
        have hcall : download_youtube env fs url k =
            (some (DATA_DIR ++ "/" ++ videoIdS url ++ ".mp4"),
             fsWrite fs (DATA_DIR ++ "/" ++ videoIdS url ++ ".mp4") content,
             [.dlCall url (DATA_DIR ++ "/" ++ videoIdS url ++ ".mp4")]) := by
          unfold download_youtube
          simp [hexf, hdl]
        rw [hcall] at h ⊢
        have hp : DATA_DIR ++ "/" ++ videoIdS url ++ ".mp4" = p := by
          simpa using h
        subst hp
        exact ⟨rfl, fsExists_write_self _ _ _⟩

/-- Replacing the suffix and then taking the final name equals taking the
    final name and then replacing its suffix. -/
theorem pathNameS_withSuffixS (p : String) :
    pathNameS (withSuffixS p ".txt") = withSuffixS (pathNameS p) ".txt" := by
  unfold pathNameS withSuffixS
  have hgoal : pathName (withSuffix p.data (".txt").data) =
      withSuffix (pathName p.data) (".txt").data := by
    rw [pathName_withSuffix p.data (".txt").data (by decide)]
    unfold withSuffix
    rw [dirPart_no_slash (pathName p.data) (hasChar_pathName p.data),
      pathName_no_slash (pathName p.data) (hasChar_pathName p.data),
      List.nil_append]
  exact congrArg String.mk hgoal

theorem withSuffixS_txt_ne_mp4 (a b : String) :
    withSuffixS a ".txt" ≠ b ++ ".mp4" := by
  intro h
  have hd := congrArg String.data h
  have h1 : (withSuffixS a ".txt").data =
      (dirPart a.data ++ nameStem (pathName a.data)) ++ String.toList ".txt" := by
    show withSuffix a.data (".txt").data = _
    unfold withSuffix
    rfl
  have h2 : (b ++ ".mp4").data = b.data ++ String.toList ".mp4" := rfl
  rw [h1, h2] at hd
  exact txt_ne_mp4_suffix _ _ hd

theorem taskOkEv_str (p : String) (lang : Option String) (t : TaskKind) :
    taskOkEv (Ev.engineCall p lang t.str) = true := by
  cases t <;> rfl

/-! ## Claim theorems -/

/-- Claim C10: download_youtube accepts a keep_file flag but never reads it:
    for every environment, filesystem and URL, the call with keep_file=true
    and the call with keep_file=false return the same result, produce the
    same filesystem, and make the same external calls. -/
theorem c10_keep_file_never_read (env : Env) (fs : FS) (url : String) :
    download_youtube env fs url true = download_youtube env fs url false := rfl

/-- Claim C5: when a download_youtube call returned a path (so the derived
    output file is on disk afterwards), a second call with the same URL
    returns the identical path, leaves the filesystem unchanged, and makes no
    external call at all: in particular the download tool is not invoked
    again. -/
theorem c5_download_idempotent (env : Env) (fs : FS) (url : String)
    (k1 k2 : Bool) (p : String)
    (h1 : (download_youtube env fs url k1).1 = some p) :
    download_youtube env ((download_youtube env fs url k1).2.1) url k2 =
      (some p, (download_youtube env fs url k1).2.1, []) := by
  obtain ⟨hp, hex⟩ := download_some_shape env fs url k1 p h1
  subst hp
  generalize hg : (download_youtube env fs url k1).2.1 = fs1 at hex ⊢
  unfold download_youtube
  simp [hex]

theorem c5_witness :
    (download_youtube envEngineOk fsEmpty urlC5 true).1 =
        some (DATA_DIR ++ "/" ++ videoIdS urlC5 ++ ".mp4") ∧
    download_youtube envEngineOk
        ((download_youtube envEngineOk fsEmpty urlC5 true).2.1) urlC5 false =
      (some (DATA_DIR ++ "/" ++ videoIdS urlC5 ++ ".mp4"),
       (download_youtube envEngineOk fsEmpty urlC5 true).2.1, []) := by
  have h1 : (download_youtube envEngineOk fsEmpty urlC5 true).1 =
      some (DATA_DIR ++ "/" ++ videoIdS urlC5 ++ ".mp4") := by decide
  exact ⟨h1, c5_download_idempotent envEngineOk fsEmpty urlC5 true false _ h1⟩

/-- Claim C6: the derived identifier of a URL is the substring after the
    last occurrence of v= truncated at the next ampersand; in particular
    the example URL yields ABC123, and a URL with no v= yields the whole
    URL truncated at its first ampersand. -/
theorem c6_derived_identifier :
    (∀ l : List Char, videoId l = derivedId l) ∧
    videoIdS "https://x.test/watch?v=ABC123&t=5" = "ABC123" ∧
    (∀ l : List Char, hasVEq l = false →
      videoId l = List.takeWhile (fun c => !(c == '&')) l) := by
  refine ⟨videoId_eq_derivedId, by decide, ?_⟩
  intro l h
  rw [videoId_eq_derivedId]
  unfold derivedId
  rw [afterLastVEq_of_not_hasVEq l h]

theorem c6_witness :
    hasVEq (String.toList "https://x.test/clip7&rest") = false ∧
    videoId (String.toList "https://x.test/clip7&rest") =
      String.toList "https://x.test/clip7" :=
  ⟨by decide, by
    rw [c6_derived_identifier.2.2 _ (by decide)]
    decide⟩

/-- Claim C2, counterexample: on a path that names no existing file the call
    does not return normally at all: the existence assertion sits before the
    try block, so an AssertionError escapes transcribe_file (the result is
    PyResult.exn, not PyResult.ok with an error string). -/
theorem c2_counterexample :
    (transcribe_file envEngineOk fsEmpty "/missing/file.wav" (some "en")
        TaskKind.transcribe).1 =
      PyResult.exn "File not found: /missing/file.wav" := by decide

/-- Claim C2, amended: for every path that does not name an existing file,
    transcribe_file raises an AssertionError out of the operation whose
    message contains the given path ("File not found: " followed by the
    path); it does not return normally, touches no file, and calls no
    external collaborator. -/
theorem c2_missing_file_raises (env : Env) (fs : FS) (file_path : String)
    (language : Option String) (task : TaskKind)
    (h : fsExists fs file_path = false) :
    transcribe_file env fs file_path language task =
      (.exn ("File not found: " ++ file_path), fs, []) := by
  unfold transcribe_file
  simp [h]

theorem c2_witness :
    fsExists fsEmpty "/missing/file.wav" = false ∧
    transcribe_file envEngineOk fsEmpty "/missing/file.wav" (some "en")
        TaskKind.transcribe =
      (.exn ("File not found: " ++ "/missing/file.wav"), fsEmpty, []) :=
  ⟨rfl, c2_missing_file_raises envEngineOk fsEmpty "/missing/file.wav"
    (some "en") TaskKind.transcribe rfl⟩

/-- Claim C3, counterexample: a concrete run in which the engine succeeds
    (with transcript "hello world") but the write of the .txt output fails:
    the operation returns the error string, not the transcript.  The write
    sits inside the try block, so its failure is caught by the same handler
    as an engine failure and replaces the return value. -/
theorem c3_counterexample :
    (transcribe_file envWriteFails fsTake "/audio/take1.mp3" (some "en")
        TaskKind.transcribe).1 =
      PyResult.ok "Error transcribing audio file: Permission denied" ∧
    (transcribe_file envWriteFails fsTake "/audio/take1.mp3" (some "en")
        TaskKind.transcribe).1 ≠
      PyResult.ok "Transcription:\n\nhello world" := by
  constructor <;> decide

/-- Claim C3, amended: when the engine succeeds but the subsequent write of
    the .txt output fails, transcribe_file returns the error string built
    from the write failure, leaves the filesystem unchanged, and the
    transcript text is not returned to the caller: persistence failure is
    fatal to the returned result. -/
theorem c3_write_failure_discards_transcript (env : Env) (fs : FS)
    (file_path : String) (language : Option String) (task : TaskKind)
    (transcript : String)
    (hex : fsExists fs file_path = true)
    (heng : env.engine file_path MODEL_PATH language task.str = .ok transcript)
    (hw : env.writeOk
      (DATA_DIR ++ "/" ++ pathNameS (withSuffixS file_path ".txt")) = false) :
    transcribe_file env fs file_path language task =
      (.ok ("Error transcribing audio file: " ++
         env.wmsg (DATA_DIR ++ "/" ++ pathNameS (withSuffixS file_path ".txt"))),
       fs, [.engineCall file_path language task.str]) := by
  unfold transcribe_file
  simp [hex, heng, hw]

theorem c3_witness :
    fsExists fsTake "/audio/take1.mp3" = true ∧
    transcribe_file envWriteFails fsTake "/audio/take1.mp3" (some "en")
        TaskKind.transcribe =
      (.ok ("Error transcribing audio file: " ++
         envWriteFails.wmsg
           (DATA_DIR ++ "/" ++ pathNameS (withSuffixS "/audio/take1.mp3" ".txt"))),
       fsTake, [.engineCall "/audio/take1.mp3" (some "en")
         TaskKind.transcribe.str]) := by
  refine ⟨by decide, ?_⟩
  exact c3_write_failure_discards_transcript envWriteFails fsTake
    "/audio/take1.mp3" (some "en") TaskKind.transcribe "hello world"
    (by decide) rfl rfl

/-- Claim C8, counterexample: an existing file on which the engine succeeds
    with the non-empty text "hello world", but the .txt write fails: the
    return value is an error string rather than one beginning with
    Transcription:, and no .txt file exists in the downloads directory
    afterwards.  The claim only holds when the transcript write also
    succeeds. -/
theorem c8_counterexample :
    (transcribe_file envWriteFails fsSong "/music/song.wav" (some "en")
        TaskKind.transcribe).1 =
      PyResult.ok "Error transcribing audio file: Permission denied" ∧
    fsExists (transcribe_file envWriteFails fsSong "/music/song.wav" (some "en")
        TaskKind.transcribe).2.1
      (DATA_DIR ++ "/" ++ withSuffixS (pathNameS "/music/song.wav") ".txt") =
      false := by
  constructor <;> decide

/-- Claim C8, amended: for every existing file path on which the engine
    succeeds with non-empty text and the transcript write succeeds,
    transcribe_file returns the string "Transcription:" followed by two
    newlines and that text, and afterwards the .txt file named by the
    final name of the input with its extension replaced by .txt exists in
    the downloads directory. -/
theorem c8_success_writes_txt (env : Env) (fs : FS) (file_path : String)
    (language : Option String) (task : TaskKind) (transcript : String)
    (hex : fsExists fs file_path = true)
    (heng : env.engine file_path MODEL_PATH language task.str = .ok transcript)
    (hnemp : transcript ≠ "")
    (hw : env.writeOk
      (DATA_DIR ++ "/" ++ pathNameS (withSuffixS file_path ".txt")) = true) :
    (transcribe_file env fs file_path language task).1 =
      .ok ("Transcription:\n\n" ++ transcript) ∧
    fsExists (transcribe_file env fs file_path language task).2.1
      (DATA_DIR ++ "/" ++ withSuffixS (pathNameS file_path) ".txt") = true := by
  have hcall : transcribe_file env fs file_path language task =
      (.ok ("Transcription:\n\n" ++ transcript),
       fsWrite fs (DATA_DIR ++ "/" ++ pathNameS (withSuffixS file_path ".txt"))
         transcript,
       [.engineCall file_path language task.str]) := by
    unfold transcribe_file
    simp [hex, heng, hw]
  rw [hcall]
  refine ⟨rfl, ?_⟩
  rw [← pathNameS_withSuffixS file_path]
  exact fsExists_write_self _ _ _

theorem c8_witness :
    fsExists fsSong "/music/song.wav" = true ∧ ("hello world" : String) ≠ "" ∧
    (transcribe_file envEngineOk fsSong "/music/song.wav" (some "en")
        TaskKind.transcribe).1 = .ok ("Transcription:\n\n" ++ "hello world") ∧
    fsExists (transcribe_file envEngineOk fsSong "/music/song.wav" (some "en")
        TaskKind.transcribe).2.1
      (DATA_DIR ++ "/" ++ withSuffixS (pathNameS "/music/song.wav") ".txt") =
      true := by
  have h := c8_success_writes_txt envEngineOk fsSong "/music/song.wav"
    (some "en") TaskKind.transcribe "hello world" (by decide) rfl
    (by decide) rfl
  exact ⟨by decide, by decide, h.1, h.2⟩

/-- Claim C1, counterexample: a run with validly decodable base64 input in
    which the transcription step fails: the temporary file is still on disk
    after the call returns.  os.unlink is only reached on the fully
    successful path and there is no finally block, so the temp file leaks on
    the failure path. -/
theorem c1_counterexample :
    envEngineFails.b64 "AAAA" = some "PAYLOAD" ∧
    fsExists (transcribe_audio envEngineFails fsEmpty "AAAA" (some "en") "wav"
        TaskKind.transcribe).2.1 "/tmp/tmpaudio.wav" = true := by
  constructor
  · rfl
  · decide

/-- Claim C1, amended: for validly decodable base64 input the temporary file
    no longer exists after the call returns when the transcription step and
    the transcript write both succeed; when the transcription step fails, or
    when the transcript write fails, the temporary file is left on disk. -/
theorem c1_temp_file_lifecycle (env : Env) (fs : FS)
    (audio_data bytes : String) (language : Option String)
    (file_format : String) (task : TaskKind)
    (hb : env.b64 audio_data = some bytes) :
    (∀ transcript,
       env.engine (env.tempStem ++ "." ++ file_format) MODEL_PATH language
           task.str = .ok transcript →
       env.writeOk (DATA_DIR ++ "/" ++
           pathNameS (withSuffixS (env.tempStem ++ "." ++ file_format) ".txt"))
         = true →
       fsExists (transcribe_audio env fs audio_data language file_format
           task).2.1 (env.tempStem ++ "." ++ file_format) = false) ∧
    (∀ msg,
       env.engine (env.tempStem ++ "." ++ file_format) MODEL_PATH language
           task.str = .error msg →
       fsExists (transcribe_audio env fs audio_data language file_format
           task).2.1 (env.tempStem ++ "." ++ file_format) = true) ∧
    (∀ transcript,
       env.engine (env.tempStem ++ "." ++ file_format) MODEL_PATH language
           task.str = .ok transcript →
       env.writeOk (DATA_DIR ++ "/" ++
           pathNameS (withSuffixS (env.tempStem ++ "." ++ file_format) ".txt"))
         = false →
       fsExists (transcribe_audio env fs audio_data language file_format
           task).2.1 (env.tempStem ++ "." ++ file_format) = true) := by
  refine ⟨?_, ?_, ?_⟩
  · intro transcript heng hw
    unfold transcribe_audio
    simp [hb, heng, hw, fsExists, fsUnlink]
  · intro msg heng
    unfold transcribe_audio
    simp [hb, heng, fsExists, fsWrite]
  · intro transcript heng hw
    unfold transcribe_audio
    simp [hb, heng, hw, fsExists, fsWrite]

theorem c1_witness :
    envEngineOk.b64 "AAAA" = some "PAYLOAD" ∧
    fsExists (transcribe_audio envEngineOk fsEmpty "AAAA" (some "en") "wav"
        TaskKind.transcribe).2.1 (envEngineOk.tempStem ++ "." ++ "wav") =
      false :=
  ⟨rfl, (c1_temp_file_lifecycle envEngineOk fsEmpty "AAAA" "PAYLOAD"
    (some "en") "wav" TaskKind.transcribe rfl).1 "hello world" rfl rfl⟩

/-- Claim C4, counterexample: for input on which the base64 decode raises,
    the call still creates the temporary file (NamedTemporaryFile runs
    before the decode) and leaves it on disk: starting from an empty
    filesystem, a file exists after the call, so the call does perform a
    filesystem write. -/
theorem c4_counterexample :
    envBadB64.b64 "%%%" = none ∧
    fsExists (transcribe_audio envBadB64 fsEmpty "%%%" (some "en") "wav"
        TaskKind.transcribe).2.1 "/tmp/tmpaudio.wav" = true := by
  constructor
  · rfl
  · decide

/-- Claim C4, amended: for input on which the base64 decode raises, the call
    returns an error string, but it does perform a filesystem write: the
    newly created temporary file is left (empty) on disk; that write is the
    only change to the filesystem and no external call is made. -/
theorem c4_invalid_b64_leaves_temp (env : Env) (fs : FS) (audio_data : String)
    (language : Option String) (file_format : String) (task : TaskKind)
    (hb : env.b64 audio_data = none) :
    transcribe_audio env fs audio_data language file_format task =
      ("Error transcribing audio: " ++ env.b64msg audio_data,
       fsWrite fs (env.tempStem ++ "." ++ file_format) "", []) := by
  unfold transcribe_audio
  simp [hb]

theorem c4_witness :
    envBadB64.b64 "not base64!" = none ∧
    transcribe_audio envBadB64 fsEmpty "not base64!" (some "en") "wav"
        TaskKind.transcribe =
      ("Error transcribing audio: " ++ envBadB64.b64msg "not base64!",
       fsWrite fsEmpty (envBadB64.tempStem ++ "." ++ "wav") "", []) :=
  ⟨rfl, c4_invalid_b64_leaves_temp envBadB64 fsEmpty "not base64!" (some "en")
    "wav" TaskKind.transcribe rfl⟩

/-- Claim C7, counterexample: a run with keep_file=false in which download
    and transcription both succeed but the transcript write fails: the
    exception handler is entered before the deletion step, so the downloaded
    media file is still on disk and no .txt transcript exists. -/
theorem c7_counterexample :
    (download_youtube envWriteFails fsEmpty urlC7 true).1 =
        some (DATA_DIR ++ "/" ++ videoIdS urlC7 ++ ".mp4") ∧
    envWriteFails.engine (DATA_DIR ++ "/" ++ videoIdS urlC7 ++ ".mp4")
        MODEL_PATH (some "en") "transcribe" = .ok "hello world" ∧
    fsExists (transcribe_youtube envWriteFails fsEmpty urlC7 (some "en")
        "transcribe" false).2.1
      (DATA_DIR ++ "/" ++ videoIdS urlC7 ++ ".mp4") = true ∧
    fsExists (transcribe_youtube envWriteFails fsEmpty urlC7 (some "en")
        "transcribe" false).2.1
      (withSuffixS (DATA_DIR ++ "/" ++ videoIdS urlC7 ++ ".mp4") ".txt") =
      false := by
  refine ⟨by decide, rfl, by decide, by decide⟩

/-- Claim C7, amended: for every transcribe_youtube call with
    keep_file=false in which download, transcription, and the transcript
    write all succeed, afterwards the downloaded media file no longer exists
    on disk while the corresponding .txt transcript file does exist. -/
theorem c7_keep_false_success (env : Env) (fs : FS) (url : String)
    (language : Option String) (task : String)
    (audio_path transcript : String)
    (hdl : (download_youtube env fs url true).1 = some audio_path)
    (heng : env.engine audio_path MODEL_PATH language task = .ok transcript)
    (hw : env.writeOk (withSuffixS audio_path ".txt") = true) :
    fsExists (transcribe_youtube env fs url language task false).2.1
      audio_path = false ∧
    fsExists (transcribe_youtube env fs url language task false).2.1
      (withSuffixS audio_path ".txt") = true := by
  obtain ⟨hap, hex1⟩ := download_some_shape env fs url true audio_path hdl
  have hne : withSuffixS audio_path ".txt" ≠ audio_path := by
    rw [hap]
    exact withSuffixS_txt_ne_mp4 (DATA_DIR ++ "/" ++ videoIdS url ++ ".mp4")
      (DATA_DIR ++ "/" ++ videoIdS url)
  rcases hg : download_youtube env fs url true with ⟨dres, fs1, evs1⟩
  rw [hg] at hdl hex1
  change dres = some audio_path at hdl
  subst hdl
  change fsExists fs1 audio_path = true at hex1
  have hm : fsExists (fsWrite fs1 (withSuffixS audio_path ".txt") transcript)
      audio_path = true :=
    fsExists_write_mono fs1 audio_path (withSuffixS audio_path ".txt")
      transcript hex1
  constructor
  · unfold transcribe_youtube
    rw [hg]
    simp [hex1, heng, hw, hm, fsExists_unlink_self]
  · unfold transcribe_youtube
    rw [hg]
    simp [hex1, heng, hw, hm]
    rw [fsExists_unlink_other _ _ _ hne]
    exact fsExists_write_self _ _ _

theorem c7_witness :
    (download_youtube envEngineOk fsEmpty urlC7w true).1 =
        some (DATA_DIR ++ "/" ++ videoIdS urlC7w ++ ".mp4") ∧
    fsExists (transcribe_youtube envEngineOk fsEmpty urlC7w (some "en")
        "transcribe" false).2.1
      (DATA_DIR ++ "/" ++ videoIdS urlC7w ++ ".mp4") = false ∧
    fsExists (transcribe_youtube envEngineOk fsEmpty urlC7w (some "en")
        "transcribe" false).2.1
      (withSuffixS (DATA_DIR ++ "/" ++ videoIdS urlC7w ++ ".mp4") ".txt") =
      true := by
  have h1 : (download_youtube envEngineOk fsEmpty urlC7w true).1 =
      some (DATA_DIR ++ "/" ++ videoIdS urlC7w ++ ".mp4") := by decide
  have h2 := c7_keep_false_success envEngineOk fsEmpty urlC7w (some "en")
    "transcribe" (DATA_DIR ++ "/" ++ videoIdS urlC7w ++ ".mp4") "hello world"
    h1 rfl rfl
  exact ⟨h1, h2.1, h2.2⟩

/-- Claim C9, counterexample: transcribe_youtube declares its task parameter
    as a bare string (unlike its two siblings, which use the validated
    two-member Literal type), so a call with task="summarize" reaches the
    engine with a value outside the enumeration: the trace contains an
    engine call whose task is "summarize". -/
theorem c9_counterexample :
    Ev.engineCall (DATA_DIR ++ "/" ++ videoIdS urlC9 ++ ".mp4") (some "en")
        "summarize" ∈
      (transcribe_youtube envEngineOk fsEmpty urlC9 (some "en") "summarize"
          true).2.2 ∧
    taskOkEvents (transcribe_youtube envEngineOk fsEmpty urlC9 (some "en")
        "summarize" true).2.2 = false := by
  constructor <;> decide

/-- Claim C9, amended: transcribe_file and transcribe_audio do restrict the
    task they pass to the engine to the two-member enumeration (their task
    parameter has the validated Literal type), so every engine call in their
    traces carries "transcribe" or "translate"; transcribe_youtube however
    accepts an arbitrary string and passes it to the engine verbatim. -/
theorem c9_task_enumeration (env : Env) (fs : FS)
    (file_path audio_data : String) (language : Option String)
    (file_format : String) (t1 t2 : TaskKind) :
    taskOkEvents (transcribe_file env fs file_path language t1).2.2 = true ∧
    taskOkEvents (transcribe_audio env fs audio_data language file_format
        t2).2.2 = true := by
  constructor
  · unfold transcribe_file
    by_cases hex : fsExists fs file_path = false
    · simp [hex, taskOkEvents]
    · cases heng : env.engine file_path MODEL_PATH language t1.str with
      | error e => simp [hex, heng, taskOkEvents, taskOkEv_str]
      | ok tr =>
        by_cases hw : env.writeOk
            (DATA_DIR ++ "/" ++ pathNameS (withSuffixS file_path ".txt")) = true
        · simp [hex, heng, hw, taskOkEvents, taskOkEv_str]
        · simp [hex, heng, hw, taskOkEvents, taskOkEv_str]
  · unfold transcribe_audio
    cases hb : env.b64 audio_data with
    | none => simp [hb, taskOkEvents]
    | some bytes =>
      cases heng : env.engine (env.tempStem ++ "." ++ file_format) MODEL_PATH
          language t2.str with
      | error e => simp [hb, heng, taskOkEvents, taskOkEv_str]
      | ok tr =>
        by_cases hw : env.writeOk (DATA_DIR ++ "/" ++
            pathNameS (withSuffixS (env.tempStem ++ "." ++ file_format) ".txt"))
            = true
        · simp [hb, heng, hw, taskOkEvents, taskOkEv_str]
        · simp [hb, heng, hw, taskOkEvents, taskOkEv_str]
